import Mathlib

/-!
Verification of the BitcoinInsight feature pipeline and ensemble decision
engine against its specification.  The definitions below are shallow
embeddings of the Python source:

* `make_ensemble_prediction`, `prepare_time_series_for_gru`,
  `column_mapping`, `resolve_feature_columns`, `get_yesterdays_features`,
  `save_prediction` embed `make_prediction.py`;
* `target_nextday`, `fetch_window_filter`, `save_to_supabase` embed
  `scripts/model_dataset_generator.py`;
* `interpolate_missing_sentiment` embeds
  `scripts/crypto_news_collector.py`;
* `sma20`, `std20`, `bb_width` embed the Bollinger block of
  `scripts/market_data_collector.py`.

Machine floats are modelled as exact rationals (reals where a square root
is required); database tables as lists of rows.
-/

/-- The three ensemble components configured in `make_prediction.py`
(`weights = {gru, lr, xgb}`). -/
inductive ModelName where
  | gru
  | lr
  | xgb
deriving DecidableEq

/-- Iteration order of `ensemble['weights'].items()` in the combination
loop of `make_ensemble_prediction`. -/
def allModels : List ModelName := [ModelName.gru, ModelName.lr, ModelName.xgb]

/-- Static ensemble configuration loaded from `ensemble_config.json`
(`gru_weight`, `lr_weight`, `xgb_weight`, `optimal_threshold`). -/
structure EnsembleConfig where
  gru_weight : ℚ
  lr_weight : ℚ
  xgb_weight : ℚ
  threshold : ℚ

/-- Weight lookup, `ensemble['weights'][model_name]`. -/
def EnsembleConfig.weight (cfg : EnsembleConfig) : ModelName → ℚ
  | ModelName.gru => cfg.gru_weight
  | ModelName.lr => cfg.lr_weight
  | ModelName.xgb => cfg.xgb_weight

/-- Per-component binary vote: `1 if conf >= ensemble['threshold'] else 0`
(`make_prediction.py` lines 457, 486, 560). -/
def componentDirection (threshold p : ℚ) : ℚ :=
  if threshold ≤ p then 1 else 0

/-- One step of the combination loop (`make_prediction.py` lines 582-586):
a component contributes its vote, its probability and its weight exactly
when it produced a probability (`model_name in predictions`) and its
configured weight is positive.  The accumulator is
`(ensemble_prediction, ensemble_confidence, total_weight)`. -/
def combineStep (cfg : EnsembleConfig) (outs : ModelName → Option ℚ)
    (acc : ℚ × ℚ × ℚ) (m : ModelName) : ℚ × ℚ × ℚ :=
  match outs m with
  | some p =>
      if 0 < cfg.weight m then
        (acc.1 + componentDirection cfg.threshold p * cfg.weight m,
         acc.2.1 + p * cfg.weight m,
         acc.2.2 + cfg.weight m)
      else acc
  | none => acc

/-- Ensemble combination and decision (`make_prediction.py` lines 577-603).
`outs m` is `some p` when component `m` ran and produced `probability_up
= p`, `none` when it failed or was unavailable.  Returns
`(final_prediction, ensemble_confidence)`, or `none` when
`total_weight == 0` (lines 589-591). -/
def make_ensemble_prediction (cfg : EnsembleConfig)
    (outs : ModelName → Option ℚ) : Option (ℚ × ℚ) :=
  let acc := allModels.foldl (combineStep cfg outs) (0, 0, 0)
  if acc.2.2 = 0 then none
  else
    let conf := acc.2.1 / acc.2.2
    some (if cfg.threshold ≤ conf then 1 else 0, conf)

/-- Contribution of one component to `ensemble_prediction`. -/
def dirContrib (cfg : EnsembleConfig) (outs : ModelName → Option ℚ)
    (m : ModelName) : ℚ :=
  match outs m with
  | some p => if 0 < cfg.weight m then componentDirection cfg.threshold p * cfg.weight m else 0
  | none => 0

/-- Contribution of one component to `ensemble_confidence`:
`confidences[model_name] * weight` for producing, positively weighted
components, `0` otherwise. -/
def probContrib (cfg : EnsembleConfig) (outs : ModelName → Option ℚ)
    (m : ModelName) : ℚ :=
  match outs m with
  | some p => if 0 < cfg.weight m then p * cfg.weight m else 0
  | none => 0

/-- Contribution of one component to `total_weight`. -/
def weightContrib (cfg : EnsembleConfig) (outs : ModelName → Option ℚ)
    (m : ModelName) : ℚ :=
  match outs m with
  | some _ => if 0 < cfg.weight m then cfg.weight m else 0
  | none => 0

/-- Sum of the weights of the components that actually produced output
(the spec's normalization base). -/
def spec_normalization_base (cfg : EnsembleConfig)
    (outs : ModelName → Option ℚ) : ℚ :=
  (allModels.map (weightContrib cfg outs)).sum

/-- The spec's combination formula: weighted average of `probability_up`
across successfully-invoked components, renormalized by the sum of the
weights of the components that actually produced output. -/
def spec_weighted_probability_up (cfg : EnsembleConfig)
    (outs : ModelName → Option ℚ) : ℚ :=
  (allModels.map (probContrib cfg outs)).sum / spec_normalization_base cfg outs

theorem foldl_combineStep (cfg : EnsembleConfig) (outs : ModelName → Option ℚ) :
    ∀ (ms : List ModelName) (acc : ℚ × ℚ × ℚ),
      ms.foldl (combineStep cfg outs) acc =
        (acc.1 + (ms.map (dirContrib cfg outs)).sum,
         acc.2.1 + (ms.map (probContrib cfg outs)).sum,
         acc.2.2 + (ms.map (weightContrib cfg outs)).sum) := by
  intro ms
  induction ms with
  | nil => intro acc; simp
  | cons m ms ih =>
      intro acc
      rw [List.foldl_cons, ih]
      cases h : outs m with
      | none =>
          simp only [combineStep, dirContrib, probContrib, weightContrib, h,
            List.map_cons, List.sum_cons]
          refine Prod.ext ?_ (Prod.ext ?_ ?_) <;> simp
      | some p =>
          by_cases hw : 0 < cfg.weight m
          · simp only [combineStep, dirContrib, probContrib, weightContrib, h,
              if_pos hw, List.map_cons, List.sum_cons]
            refine Prod.ext ?_ (Prod.ext ?_ ?_) <;> simp <;> ring
          · simp only [combineStep, dirContrib, probContrib, weightContrib, h,
              if_neg hw, List.map_cons, List.sum_cons]
            refine Prod.ext ?_ (Prod.ext ?_ ?_) <;> simp

theorem make_ensemble_prediction_eq (cfg : EnsembleConfig)
    (outs : ModelName → Option ℚ) :
    make_ensemble_prediction cfg outs =
      (if spec_normalization_base cfg outs = 0 then none
       else
         some (if cfg.threshold ≤ spec_weighted_probability_up cfg outs then (1 : ℚ) else 0,
               spec_weighted_probability_up cfg outs)) := by
  unfold make_ensemble_prediction spec_weighted_probability_up spec_normalization_base
  rw [foldl_combineStep]
  simp

/-- C5: For every ensemble invocation in which zero components produce a
probability (all failed, unavailable, or zero-weighted), the engine
returns an explicit failure (`None, None`) to the caller and emits no
direction and no confidence; it never falls back to a default up or down
prediction. -/
theorem ensemble_all_failed_returns_none (cfg : EnsembleConfig)
    (outs : ModelName → Option ℚ)
    (h : ∀ m, outs m = none ∨ ¬ 0 < cfg.weight m) :
    make_ensemble_prediction cfg outs = none := by
  rw [make_ensemble_prediction_eq]
  have hz : spec_normalization_base cfg outs = 0 := by
    unfold spec_normalization_base
    apply List.sum_eq_zero
    intro x hx
    rcases List.mem_map.mp hx with ⟨m, _, rfl⟩
    rcases h m with h1 | h1
    · simp [weightContrib, h1]
    · cases houts : outs m <;> simp [weightContrib, houts, h1]
  rw [if_pos hz]

/-- Concrete configuration used by witnesses: every weight 1, threshold 1/2. -/
def cfgUnit : EnsembleConfig := ⟨1, 1, 1, 1/2⟩

theorem ensemble_all_failed_returns_none_witness :
    make_ensemble_prediction cfgUnit (fun _ => none) = none :=
  ensemble_all_failed_returns_none cfgUnit (fun _ => none) (fun _ => Or.inl rfl)

/-- Configuration with only the LR component weighted (weights 0, 1, 0,
threshold 1/2). -/
def cfgC2 : EnsembleConfig := ⟨0, 1, 0, 1/2⟩

/-- Component outputs where only LR produced a probability, 0.3. -/
def outsC2 : ModelName → Option ℚ
  | ModelName.lr => some (3/10)
  | _ => none

/-- C2 counterexample: with a single component of weight 1 producing
probability 0.3 and threshold 0.5, the weighted `probability_up` is 0.3,
the emitted direction is 0, and the emitted confidence is 0.3 — not
`1 - 0.3 = 0.7` as the claim's second equation requires.  The code
returns `ensemble_confidence` unchanged regardless of direction
(`make_prediction.py` lines 594-603). -/
theorem ensemble_confidence_not_flipped_cex :
    spec_weighted_probability_up cfgC2 outsC2 = 3/10 ∧
    make_ensemble_prediction cfgC2 outsC2 = some (0, 3/10) ∧
    (3 : ℚ)/10 ≠ 1 - 3/10 := by
  refine ⟨by norm_num [make_ensemble_prediction, combineStep, allModels, spec_weighted_probability_up, spec_normalization_base, probContrib, weightContrib, outsC2, cfgC2, EnsembleConfig.weight, componentDirection], by norm_num [make_ensemble_prediction, combineStep, allModels, spec_weighted_probability_up, spec_normalization_base, probContrib, weightContrib, outsC2, cfgC2, EnsembleConfig.weight, componentDirection], by norm_num⟩

/-- C2 (amended): for every ensemble invocation in which at least one
component produces a probability, the emitted direction is 1 exactly when
the weighted `probability_up` reaches the configured threshold and 0
otherwise, and the emitted confidence equals the weighted
`probability_up` in both cases (it is never flipped to
`1 - weighted_probability_up` when the direction is 0). -/
theorem ensemble_decision_rule_amended (cfg : EnsembleConfig)
    (outs : ModelName → Option ℚ) (d c : ℚ)
    (h : make_ensemble_prediction cfg outs = some (d, c)) :
    c = spec_weighted_probability_up cfg outs ∧
    d = (if cfg.threshold ≤ c then (1 : ℚ) else 0) := by
  rw [make_ensemble_prediction_eq] at h
  by_cases hz : spec_normalization_base cfg outs = 0
  · rw [if_pos hz] at h; cases h
  · rw [if_neg hz] at h
    simp only [Option.some.injEq, Prod.mk.injEq] at h
    obtain ⟨hd, hc⟩ := h
    refine ⟨hc.symm, ?_⟩
    rw [← hc]
    exact hd.symm

theorem ensemble_decision_rule_amended_witness :
    make_ensemble_prediction cfgC2 outsC2 = some (0, 3/10) ∧
    ((3 : ℚ)/10 = spec_weighted_probability_up cfgC2 outsC2 ∧
     (0 : ℚ) = (if cfgC2.threshold ≤ 3/10 then (1 : ℚ) else 0)) :=
  ⟨by norm_num [make_ensemble_prediction, combineStep, allModels, spec_weighted_probability_up, spec_normalization_base, probContrib, weightContrib, outsC2, cfgC2, EnsembleConfig.weight, componentDirection], ensemble_decision_rule_amended cfgC2 outsC2 0 (3/10) (by norm_num [make_ensemble_prediction, combineStep, allModels, spec_weighted_probability_up, spec_normalization_base, probContrib, weightContrib, outsC2, cfgC2, EnsembleConfig.weight, componentDirection])⟩

/-- Configuration with two active components: LR weight 2, XGB weight 1,
threshold 1/2 (GRU weight 0). -/
def cfgC4 : EnsembleConfig := ⟨0, 2, 1, 1/2⟩

/-- Outputs: LR produced 0.8, XGB produced 0.2. -/
def outsC4 : ModelName → Option ℚ
  | ModelName.lr => some (4/5)
  | ModelName.xgb => some (1/5)
  | _ => none

/-- Outputs: LR produced 0.8, XGB (the second configured component) failed. -/
def outsC4fail : ModelName → Option ℚ
  | ModelName.lr => some (4/5)
  | _ => none

/-- C4: the combined probability equals the sum of weight times
`probability_up` over the components that produced a probability, divided
by the sum of those components' weights; with weights 2 and 1 and
probabilities 0.8 and 0.2 the combined probability is 0.6 and with
threshold 0.5 the decision is up with confidence 0.6; and when one of two
configured components fails, the surviving component's weight becomes the
entire normalization base and a decision is still returned. -/
theorem ensemble_weighted_average_combination :
    (∀ (cfg : EnsembleConfig) (outs : ModelName → Option ℚ) (d c : ℚ),
        make_ensemble_prediction cfg outs = some (d, c) →
        c = spec_weighted_probability_up cfg outs) ∧
    spec_weighted_probability_up cfgC4 outsC4 = 3/5 ∧
    make_ensemble_prediction cfgC4 outsC4 = some (1, 3/5) ∧
    spec_normalization_base cfgC4 outsC4fail = cfgC4.weight ModelName.lr ∧
    make_ensemble_prediction cfgC4 outsC4fail = some (1, 4/5) := by
  refine ⟨?_, by norm_num [make_ensemble_prediction, combineStep, allModels, spec_weighted_probability_up, spec_normalization_base, probContrib, weightContrib, outsC2, outsC4, outsC4fail, cfgC2, cfgC4, EnsembleConfig.weight, componentDirection], by norm_num [make_ensemble_prediction, combineStep, allModels, spec_weighted_probability_up, spec_normalization_base, probContrib, weightContrib, outsC2, outsC4, outsC4fail, cfgC2, cfgC4, EnsembleConfig.weight, componentDirection], by norm_num [make_ensemble_prediction, combineStep, allModels, spec_weighted_probability_up, spec_normalization_base, probContrib, weightContrib, outsC2, outsC4, outsC4fail, cfgC2, cfgC4, EnsembleConfig.weight, componentDirection], by norm_num [make_ensemble_prediction, combineStep, allModels, spec_weighted_probability_up, spec_normalization_base, probContrib, weightContrib, outsC2, outsC4, outsC4fail, cfgC2, cfgC4, EnsembleConfig.weight, componentDirection]⟩
  intro cfg outs d c h
  rw [make_ensemble_prediction_eq] at h
  by_cases hz : spec_normalization_base cfg outs = 0
  · rw [if_pos hz] at h; cases h
  · rw [if_neg hz] at h
    simp only [Option.some.injEq, Prod.mk.injEq] at h
    exact h.2.symm

theorem ensemble_weighted_average_combination_witness :
    make_ensemble_prediction cfgC4 outsC4 = some (1, 3/5) ∧
    (3 : ℚ)/5 = spec_weighted_probability_up cfgC4 outsC4 :=
  ⟨by norm_num [make_ensemble_prediction, combineStep, allModels, spec_weighted_probability_up, spec_normalization_base, probContrib, weightContrib, outsC2, outsC4, outsC4fail, cfgC2, cfgC4, EnsembleConfig.weight, componentDirection], ensemble_weighted_average_combination.1 cfgC4 outsC4 1 (3/5) (by norm_num [make_ensemble_prediction, combineStep, allModels, spec_weighted_probability_up, spec_normalization_base, probContrib, weightContrib, outsC2, outsC4, outsC4fail, cfgC2, cfgC4, EnsembleConfig.weight, componentDirection])⟩

/-- Time-series preparation for the GRU component
(`make_prediction.py` lines 279-333, `prepare_time_series_for_gru`).
`rows` is the feature matrix in chronological order (the function first
sorts by date ascending); each row is a feature vector.  `df_sorted.tail
(window_size)` keeps the most recent `window_size` rows; when fewer rows
are available, `np.tile(X[0:1], (padding_needed, 1))` stacks copies of
the earliest row and `np.vstack([padding, X])` puts them in front. -/
def prepare_time_series_for_gru (rows : List (List ℚ)) (window_size : ℕ) :
    List (List ℚ) :=
  let df_window :=
    if window_size ≤ rows.length then rows.drop (rows.length - window_size)
    else rows
  if df_window.length < window_size then
    List.replicate (window_size - df_window.length) df_window.headI ++ df_window
  else df_window

/-- C6: for every window-model input built from `k` available feature rows
with `0 < k <` window size `N`, the constructed window has exactly `N`
rows, its first `N - k` rows are copies of the earliest available row,
and its last `k` rows equal the `k` real rows in chronological order. -/
theorem gru_window_left_padding (rows : List (List ℚ)) (N : ℕ)
    (hne : rows ≠ []) (hlt : rows.length < N) :
    (prepare_time_series_for_gru rows N).length = N ∧
    (prepare_time_series_for_gru rows N).take (N - rows.length) =
      List.replicate (N - rows.length) rows.headI ∧
    (prepare_time_series_for_gru rows N).drop (N - rows.length) = rows := by
  have hnotle : ¬ N ≤ rows.length := Nat.not_le.mpr hlt
  have hwin : prepare_time_series_for_gru rows N =
      List.replicate (N - rows.length) rows.headI ++ rows := by
    unfold prepare_time_series_for_gru
    rw [if_neg hnotle, if_pos hlt]
  refine ⟨?_, ?_, ?_⟩
  · rw [hwin]
    simp only [List.length_append, List.length_replicate]
    omega
  · rw [hwin]
    exact List.take_left' (by simp)
  · rw [hwin]
    exact List.drop_left' (by simp)

theorem gru_window_left_padding_witness :
    ([[(1 : ℚ)], [2], [3]] ≠ ([] : List (List ℚ))) ∧
    ([[(1 : ℚ)], [2], [3]] : List (List ℚ)).length < 5 ∧
    (prepare_time_series_for_gru [[(1 : ℚ)], [2], [3]] 5).length = 5 ∧
    (prepare_time_series_for_gru [[(1 : ℚ)], [2], [3]] 5).take 2 =
      List.replicate 2 [(1 : ℚ)] ∧
    (prepare_time_series_for_gru [[(1 : ℚ)], [2], [3]] 5).drop 2 =
      [[(1 : ℚ)], [2], [3]] := by
  refine ⟨by simp, by simp, ?_⟩
  have h := gru_window_left_padding [[(1 : ℚ)], [2], [3]] 5 (by simp) (by simp)
  simpa using h

/-- Window of the 20 closing prices ending at index `i`
(`btc_close.rolling(window=20)` in `scripts/market_data_collector.py`). -/
def rolling20 (closes : List ℝ) (i : ℕ) : List ℝ :=
  (closes.take (i + 1)).drop (i + 1 - 20)

/-- 20-day rolling mean of the close price, `sma20` in
`scripts/market_data_collector.py` line 156. -/
noncomputable def sma20 (closes : List ℝ) (i : ℕ) : ℝ :=
  (rolling20 closes i).sum / 20

/-- 20-day rolling standard deviation of the close price (`std20`,
line 157; pandas uses the sample deviation, divisor 19). -/
noncomputable def std20 (closes : List ℝ) (i : ℕ) : ℝ :=
  Real.sqrt (((rolling20 closes i).map (fun x => (x - sma20 closes i) ^ 2)).sum / 19)

/-- Upper Bollinger band, `bb_upper = sma20 + (2 * std20)` (line 158). -/
noncomputable def bb_upper (closes : List ℝ) (i : ℕ) : ℝ :=
  sma20 closes i + 2 * std20 closes i

/-- Lower Bollinger band, `bb_lower = sma20 - (2 * std20)` (line 159). -/
noncomputable def bb_lower (closes : List ℝ) (i : ℕ) : ℝ :=
  sma20 closes i - 2 * std20 closes i

/-- Bollinger band width, `bb_width = (bb_upper - bb_lower) / sma20`
(line 160). -/
noncomputable def bb_width (closes : List ℝ) (i : ℕ) : ℝ :=
  (bb_upper closes i - bb_lower closes i) / sma20 closes i

/-- C9: for every date with a fully populated 20-day trailing window, the
computed Bollinger band width equals
`(MA20 + 2·σ20 - (MA20 - 2·σ20)) / MA20 = 4·σ20 / MA20`. -/
theorem bb_width_eq_four_sigma_over_ma (closes : List ℝ) (i : ℕ)
    (hfull : 19 ≤ i) (hlen : i < closes.length) :
    bb_width closes i =
      (sma20 closes i + 2 * std20 closes i -
        (sma20 closes i - 2 * std20 closes i)) / sma20 closes i ∧
    bb_width closes i = 4 * std20 closes i / sma20 closes i := by
  constructor
  · rfl
  · unfold bb_width bb_upper bb_lower
    rw [show sma20 closes i + 2 * std20 closes i -
        (sma20 closes i - 2 * std20 closes i) = 4 * std20 closes i by ring]

theorem bb_width_eq_four_sigma_over_ma_witness :
    19 ≤ 19 ∧ 19 < (List.replicate 20 (1 : ℝ)).length ∧
    bb_width (List.replicate 20 (1 : ℝ)) 19 =
      4 * std20 (List.replicate 20 (1 : ℝ)) 19 /
        sma20 (List.replicate 20 (1 : ℝ)) 19 :=
  ⟨by norm_num,
   by simp,
   (bb_width_eq_four_sigma_over_ma (List.replicate 20 (1 : ℝ)) 19
      (by norm_num) (by simp)).2⟩

/-- Alias table from model feature names to stored snake_case column
names (`make_prediction.py` lines 356-371, `column_mapping`). -/
def column_mapping : List (String × String) :=
  [("sent_q2_flag_x_Close_to_SMA10", "sent_q2_flag_x_close_to_sma10"),
   ("BTC_GLD_corr_5d", "btc_gld_corr_5d"),
   ("BTC_Nasdaq_beta_10d", "btc_nasdaq_beta_10d"),
   ("BTC_Nasdaq_corr_5d", "btc_nasdaq_corr_5d"),
   ("sent_vol", "sent_vol"),
   ("sent_cross_up_x_high_low_range", "sent_cross_up_x_high_low_range"),
   ("sent_q5_flag", "sent_q5_flag"),
   ("ROC_1d", "roc_1d"),
   ("ROC_3d", "roc_3d"),
   ("sent_5d", "sent_5d"),
   ("volume_change_1d", "volume_change_1d"),
   ("sent_neg_x_high_low_range", "sent_neg_x_high_low_range"),
   ("high_low_range", "high_low_range"),
   ("sent_accel", "sent_accel")]

/-- Default snake_case feature list used when the ensemble config carries
no `feature_columns` (`make_prediction.py` lines 402-417). -/
def default_feature_columns : List String :=
  ["sent_q2_flag_x_close_to_sma10", "btc_gld_corr_5d", "btc_nasdaq_beta_10d",
   "btc_nasdaq_corr_5d", "sent_vol", "sent_cross_up_x_high_low_range",
   "sent_q5_flag", "roc_1d", "roc_3d", "sent_5d", "volume_change_1d",
   "sent_neg_x_high_low_range", "high_low_range", "sent_accel"]

/-- Resolution of one required model feature name against the feature
DataFrame's columns (`make_prediction.py` lines 381-399): a name in the
alias table resolves to its snake_case alias when that alias is a column
(and to nothing otherwise); a name outside the table resolves to itself
when present, else to its lowercase form when that is present. -/
def resolveColumn (cols : List String) (col : String) : Option String :=
  match column_mapping.lookup col with
  | some snake => if snake ∈ cols then some snake else none
  | none =>
      if col ∈ cols then some col
      else if col.toLower ∈ cols then some col.toLower
      else none

/-- One iteration of the resolution loop: a resolved name is appended to
`feature_columns`, an unresolved one to `missing_features`. -/
def resolveStep (cols : List String) (acc : List String × List String)
    (col : String) : List String × List String :=
  match resolveColumn cols col with
  | some c => (acc.1 ++ [c], acc.2)
  | none => (acc.1, acc.2 ++ [col])

/-- The resolution loop: builds `feature_columns` (resolved names, in
order) and `missing_features` (unresolved original names, in order). -/
def resolveFeatures (original cols : List String) :
    List String × List String :=
  original.foldl (resolveStep cols) ([], [])

/-- Feature-column selection of `make_ensemble_prediction`
(`make_prediction.py` lines 374-429): with configured `feature_columns`
the alias resolution loop runs; without them the default snake_case list
is checked directly.  Any missing features abort the invocation
(`return None, None`, line 429) carrying the full missing list. -/
def resolve_feature_columns (cfgCols : Option (List String))
    (cols : List String) : Except (List String) (List String) :=
  match cfgCols with
  | some original =>
      let r := resolveFeatures original cols
      if r.2.isEmpty then Except.ok r.1 else Except.error r.2
  | none =>
      let missing := default_feature_columns.filter (fun c => ¬ c ∈ cols)
      if missing.isEmpty then Except.ok default_feature_columns
      else Except.error missing

theorem resolveFeatures_eq (cols : List String) :
    ∀ (original : List String) (acc : List String × List String),
      original.foldl (resolveStep cols) acc =
      (acc.1 ++ original.filterMap (resolveColumn cols),
       acc.2 ++ original.filter (fun c => (resolveColumn cols c).isNone)) := by
  intro original
  induction original with
  | nil => intro acc; simp
  | cons c original ih =>
      intro acc
      rw [List.foldl_cons, ih]
      cases h : resolveColumn cols c with
      | none => simp [resolveStep, h]
      | some v => simp [resolveStep, h]

/-- C8: for every prediction invocation, if at least one feature name
required by the model cannot be resolved to a column of the feature row,
the engine fails for that invocation, reporting the full list of
unresolved names (every unresolved name is in the reported list), and
returns no resolved feature set; this covers both the configured and the
default feature lists. -/
theorem unresolved_features_fail_loudly :
    (∀ (original cols : List String),
        (∃ c ∈ original, resolveColumn cols c = none) →
        resolve_feature_columns (some original) cols =
          Except.error (original.filter (fun c => (resolveColumn cols c).isNone)) ∧
        ∀ c ∈ original, resolveColumn cols c = none →
          c ∈ original.filter (fun c => (resolveColumn cols c).isNone)) ∧
    (∀ cols : List String,
        (∃ c ∈ default_feature_columns, ¬ c ∈ cols) →
        resolve_feature_columns none cols =
          Except.error (default_feature_columns.filter (fun c => ¬ c ∈ cols))) := by
  constructor
  · intro original cols ⟨c, hc, hnone⟩
    have hmem : c ∈ original.filter (fun c => (resolveColumn cols c).isNone) :=
      List.mem_filter.mpr ⟨hc, by simp [hnone]⟩
    constructor
    · simp only [resolve_feature_columns, resolveFeatures]
      rw [resolveFeatures_eq]
      have hne : ¬ (original.filter (fun c => (resolveColumn cols c).isNone)).isEmpty := by
        intro habs
        rw [List.isEmpty_iff] at habs
        rw [habs] at hmem
        exact absurd hmem (List.not_mem_nil c)
      simp only [List.nil_append]
      rw [if_neg hne]
    · intro d hd hdnone
      exact List.mem_filter.mpr ⟨hd, by simp [hdnone]⟩
  · intro cols ⟨c, hc, hnotin⟩
    have hmem : c ∈ default_feature_columns.filter (fun c => ¬ c ∈ cols) :=
      List.mem_filter.mpr ⟨hc, by simp [hnotin]⟩
    simp only [resolve_feature_columns]
    have hne : ¬ (default_feature_columns.filter (fun c => ¬ c ∈ cols)).isEmpty := by
      intro habs
      rw [List.isEmpty_iff] at habs
      rw [habs] at hmem
      exact absurd hmem (List.not_mem_nil c)
    rw [if_neg hne]

theorem unresolved_features_fail_loudly_witness :
    resolveColumn ["roc_1d"] "BTC_GLD_corr_5d" = none ∧
    resolve_feature_columns (some ["BTC_GLD_corr_5d", "ROC_1d"]) ["roc_1d"] =
      Except.error ["BTC_GLD_corr_5d"] ∧
    resolve_feature_columns none ["roc_1d"] =
      Except.error (default_feature_columns.filter
        (fun c => ¬ c ∈ ["roc_1d"])) := by
  refine ⟨by decide, ?_, ?_⟩
  · have h := (unresolved_features_fail_loudly.1 ["BTC_GLD_corr_5d", "ROC_1d"]
      ["roc_1d"] ⟨"BTC_GLD_corr_5d", by decide, by decide⟩).1
    rw [h]
    rfl
  · exact unresolved_features_fail_loudly.2 ["roc_1d"]
      ⟨"sent_q2_flag_x_close_to_sma10", by decide, by decide⟩

/-- A persisted `model_features` row: its `date` (days since an epoch) and
its feature payload. -/
structure FRow where
  date : ℕ
  features : List ℚ
deriving DecidableEq

/-- One comparison step when scanning for the most recent row. -/
def mostRecentStep (acc : Option FRow) (r : FRow) : Option FRow :=
  match acc with
  | none => some r
  | some b => if b.date < r.date then some r else some b

/-- The most recent row of the table
(`.order('date', desc=True).limit(1)` in `make_prediction.py` line 87). -/
def mostRecentRow (db : List FRow) : Option FRow :=
  db.foldl mostRecentStep none

/-- Feature fetch for a prediction run (`make_prediction.py` lines 53-104,
`get_yesterdays_features`): query the rows dated yesterday
(`today - 1`); when none exist, fall back to the single most recent row
of any age; when the table is empty, fail (`None`). -/
def get_yesterdays_features (db : List FRow) (today : ℕ) :
    Option (List FRow) :=
  let yesterday := today - 1
  let response := db.filter (fun r => r.date = yesterday)
  if response.isEmpty then
    match mostRecentRow db with
    | some r => some [r]
    | none => none
  else some response

/-- A row of the `btc_price_predictions` table. -/
structure PredictionRecord where
  prediction_date : ℕ
  price_direction : ℚ
  confidence_score : ℚ
deriving DecidableEq

/-- Prediction persistence (`make_prediction.py` lines 611-660,
`save_prediction`): the record is keyed under tomorrow's calendar date,
`datetime.now().date() + timedelta(days=1)`, computed from the wall
clock and not from the feature row's date. -/
def save_prediction (today : ℕ) (prediction confidence : ℚ) :
    PredictionRecord :=
  { prediction_date := today + 1
    price_direction := prediction
    confidence_score := confidence }

theorem mostRecentRow_aux :
    ∀ (l : List FRow) (b : FRow),
      ∃ r, l.foldl mostRecentStep (some b) = some r ∧ (r = b ∨ r ∈ l) ∧
        b.date ≤ r.date ∧ ∀ x ∈ l, x.date ≤ r.date := by
  intro l
  induction l with
  | nil =>
      intro b
      exact ⟨b, rfl, Or.inl rfl, le_refl _, by simp⟩
  | cons x l ih =>
      intro b
      rw [List.foldl_cons]
      by_cases h : b.date < x.date
      · have hstep : mostRecentStep (some b) x = some x := by
          simp [mostRecentStep, h]
        rw [hstep]
        obtain ⟨r, hr, hmem, hle, hall⟩ := ih x
        refine ⟨r, hr, ?_, le_of_lt (lt_of_lt_of_le h hle), ?_⟩
        · rcases hmem with rfl | hm
          · exact Or.inr (List.mem_cons_self _ _)
          · exact Or.inr (List.mem_cons_of_mem _ hm)
        · intro y hy
          rcases List.mem_cons.mp hy with rfl | hy2
          · exact hle
          · exact hall y hy2
      · have hstep : mostRecentStep (some b) x = some b := by
          simp [mostRecentStep, h]
        rw [hstep]
        obtain ⟨r, hr, hmem, hle, hall⟩ := ih b
        refine ⟨r, hr, ?_, hle, ?_⟩
        · rcases hmem with rfl | hm
          · exact Or.inl rfl
          · exact Or.inr (List.mem_cons_of_mem _ hm)
        · intro y hy
          rcases List.mem_cons.mp hy with rfl | hy2
          · exact le_trans (Nat.le_of_not_lt h) hle
          · exact hall y hy2

theorem mostRecentRow_spec (db : List FRow) (hne : db ≠ []) :
    ∃ r, mostRecentRow db = some r ∧ r ∈ db ∧ ∀ x ∈ db, x.date ≤ r.date := by
  cases db with
  | nil => exact absurd rfl hne
  | cons x l =>
      obtain ⟨r, hr, hmem, hle, hall⟩ := mostRecentRow_aux l x
      refine ⟨r, ?_, ?_, ?_⟩
      · unfold mostRecentRow
        rw [List.foldl_cons]
        have hfirst : mostRecentStep none x = some x := rfl
        rw [hfirst, hr]
      · rcases hmem with rfl | hm
        · exact List.mem_cons_self _ _
        · exact List.mem_cons_of_mem _ hm
      · intro y hy
        rcases List.mem_cons.mp hy with rfl | hy2
        · exact hle
        · exact hall y hy2

/-- C10: when no feature row exists for yesterday's date, the prediction
step does not fail: it falls back to the most recent feature row of any
age, and the resulting decision is recorded under tomorrow's calendar
date computed from the wall clock (`today + 1`), not from the feature
row's date. -/
theorem stale_fallback_prediction_dated_tomorrow (db : List FRow)
    (today : ℕ) (pred conf : ℚ) (hne : db ≠ [])
    (hnoy : ∀ r ∈ db, r.date ≠ today - 1) :
    (∃ r, get_yesterdays_features db today = some [r] ∧ r ∈ db ∧
       ∀ x ∈ db, x.date ≤ r.date) ∧
    (save_prediction today pred conf).prediction_date = today + 1 := by
  constructor
  · have hfilter : db.filter (fun r => r.date = today - 1) = [] := by
      rw [List.filter_eq_nil_iff]
      intro a ha
      simp [hnoy a ha]
    obtain ⟨r, hr, hmem, hall⟩ := mostRecentRow_spec db hne
    refine ⟨r, ?_, hmem, hall⟩
    unfold get_yesterdays_features
    simp only [hfilter, List.isEmpty_nil, if_true, hr]
  · rfl

/-- A one-row feature table whose only row is dated day 3. -/
def dbStale : List FRow := [⟨3, [1]⟩]

theorem stale_fallback_prediction_dated_tomorrow_witness :
    (∃ r, get_yesterdays_features dbStale 10 = some [r] ∧ r ∈ dbStale ∧
       ∀ x ∈ dbStale, x.date ≤ r.date) ∧
    (save_prediction 10 1 (1/2)).prediction_date = 11 :=
  stale_fallback_prediction_dated_tomorrow dbStale 10 1 (1/2)
    (List.cons_ne_nil _ _)
    (by intro r hr; simp only [dbStale, List.mem_singleton] at hr; rw [hr]; decide)

/-- Days of history fetched before the watermark so that rolling windows
spanning the boundary are refreshed (`SENTIMENT_BUFFER = 10`,
`scripts/model_dataset_generator.py` line 146). -/
def SENTIMENT_BUFFER : ℕ := 10

/-- Date filter of `fetch_data` under `--update-only`
(`scripts/model_dataset_generator.py` lines 172-185): keep rows dated on
or after `latest_date - SENTIMENT_BUFFER` (`.filter("date", "gte",
start_str)`). -/
def fetch_window_filter (latest_date : ℕ) (rows : List FRow) : List FRow :=
  rows.filter (fun r => latest_date - SENTIMENT_BUFFER ≤ r.date)

/-- Persistence step of `scripts/model_dataset_generator.py` lines
250-281 (`save_to_supabase`): the recomputed rows are filtered against
the dates already present (`~df["date_str"].isin(existing_dates)`) and
only the remaining rows are inserted; nothing is updated in place. -/
def save_to_supabase (existing computed : List FRow) : List FRow :=
  existing ++ computed.filter (fun r => ¬ r.date ∈ existing.map FRow.date)

/-- Already persisted feature table: one row, dated day 20, value row [1]. -/
def existingC1 : List FRow := [⟨20, [1]⟩]

/-- Freshly recomputed rows for the re-derivation window of watermark 20:
day 20 recomputed to the new value row [2], plus a new day 21. -/
def computedC1 : List FRow := [⟨20, [2]⟩, ⟨21, [3]⟩]

/-- C1 counterexample: with watermark 20, day 20 lies inside the
re-derivation window (which starts at `20 - 10 = 10`), and the pipeline
recomputes a new value row [2] for it; yet after persistence the table
still holds the old row `⟨20, [1]⟩` and the recomputed `⟨20, [2]⟩` was
never written: the already-persisted row in the window is skipped, not
overwritten. -/
theorem incremental_update_overwrite_cex :
    20 - SENTIMENT_BUFFER ≤ 20 ∧
    fetch_window_filter 20 computedC1 = computedC1 ∧
    save_to_supabase existingC1 computedC1 = [⟨20, [1]⟩, ⟨21, [3]⟩] ∧
    (⟨20, [2]⟩ : FRow) ∉ save_to_supabase existingC1 computedC1 ∧
    (⟨20, [1]⟩ : FRow) ∈ save_to_supabase existingC1 computedC1 ∧
    ([1] : List ℚ) ≠ [2] := by
  refine ⟨by decide, by decide, by decide, by decide, by decide, by decide⟩

/-- C1 (amended): the incremental update re-derives feature rows starting
`SENTIMENT_BUFFER` (10) days before the latest persisted date through the
present, but already-persisted rows whose dates fall inside that window
are skipped rather than overwritten: every previously persisted row
survives unchanged, a recomputed row is inserted exactly when its date is
not yet persisted, and a recomputed row whose date is already persisted
appears in the final table only as its old value. -/
theorem incremental_update_amended :
    (∀ (latest : ℕ) (rows : List FRow) (r : FRow),
        r ∈ fetch_window_filter latest rows ↔
          r ∈ rows ∧ latest - SENTIMENT_BUFFER ≤ r.date) ∧
    (∀ existing computed : List FRow,
        (∀ e ∈ existing, e ∈ save_to_supabase existing computed) ∧
        (∀ c ∈ computed, ¬ c.date ∈ existing.map FRow.date →
            c ∈ save_to_supabase existing computed) ∧
        (∀ c ∈ computed, c.date ∈ existing.map FRow.date →
            c ∈ save_to_supabase existing computed → c ∈ existing)) := by
  constructor
  · intro latest rows r
    simp [fetch_window_filter, List.mem_filter]
  · intro existing computed
    refine ⟨?_, ?_, ?_⟩
    · intro e he
      exact List.mem_append_left _ he
    · intro c hc hnotdup
      refine List.mem_append_right _ ?_
      exact List.mem_filter.mpr ⟨hc, by simp [hnotdup]⟩
    · intro c _ hdup hmem
      rcases List.mem_append.mp hmem with h | h
      · exact h
      · have hcond := (List.mem_filter.mp h).2
        simp at hcond
        obtain ⟨x, hx, hxd⟩ := List.mem_map.mp hdup
        exact absurd hxd (hcond x hx)

theorem incremental_update_amended_witness :
    ((⟨21, [3]⟩ : FRow) ∈ fetch_window_filter 20 computedC1 ↔
      (⟨21, [3]⟩ : FRow) ∈ computedC1 ∧ 20 - SENTIMENT_BUFFER ≤ 21) ∧
    (⟨20, [1]⟩ : FRow) ∈ save_to_supabase existingC1 computedC1 ∧
    (⟨21, [3]⟩ : FRow) ∈ save_to_supabase existingC1 computedC1 :=
  ⟨incremental_update_amended.1 20 computedC1 ⟨21, [3]⟩,
   (incremental_update_amended.2 existingC1 computedC1).1 ⟨20, [1]⟩ (by decide),
   (incremental_update_amended.2 existingC1 computedC1).2.1 ⟨21, [3]⟩
     (by decide) (by decide)⟩

/-- Target construction of `create_features`
(`scripts/model_dataset_generator.py` line 225, identically
`model_dataset_generator.py` line 222):
`(df["btc_close"].shift(-1) > df["btc_close"]).astype(int)`.  For the
final row `shift(-1)` yields NaN, the comparison `NaN > close` evaluates
False, and `astype(int)` turns it into the integer 0 — not into a null.
The subsequent `dropna` therefore never removes a row on account of the
target column. -/
def target_nextday (closes : List ℚ) : List ℕ :=
  (List.range closes.length).map (fun i =>
    match closes.get? (i + 1) with
    | some nxt => if closes.getD i 0 < nxt then 1 else 0
    | none => 0)

/-- C3 evaluation at the failing input: for the close series `[1, 2]` the
generated targets are `[1, 0]` — the last available row (whose next-day
close is unknown) carries the concrete target 0 instead of carrying no
target, so it is emitted as a labelled row. -/
theorem last_row_target_is_zero :
    target_nextday [1, 2] = [1, 0] ∧
    (target_nextday [1, 2]).getLast? = some 0 := by
  constructor
  · show (List.range 2).map _ = [1, 0]
    norm_num [List.range_succ]
  · show ((List.range 2).map _).getLast? = some 0
    norm_num [List.range_succ]

/-- Last directly observed sentiment at or before position `i` (the value
a pandas forward fill assigns to position `i`). -/
def lastObs (xs : List (Option ℚ)) (i : ℕ) : Option ℚ :=
  ((xs.take (i + 1)).filterMap id).getLast?

/-- First directly observed sentiment at or after position `i` (the value
a pandas backward fill assigns to position `i`). -/
def nextObs (xs : List (Option ℚ)) (i : ℕ) : Option ℚ :=
  ((xs.drop i).filterMap id).head?

/-- Forward fill, `df_copy['mean_sentiment'].fillna(method='ffill')`
(`scripts/crypto_news_collector.py` line 258): every position receives
the most recent observation at or before it. -/
def ffill (xs : List (Option ℚ)) : List (Option ℚ) :=
  (List.range xs.length).map (lastObs xs)

/-- Backward fill, `.fillna(method='bfill')` (line 259): every position
receives the nearest observation at or after it. -/
def bfill (xs : List (Option ℚ)) : List (Option ℚ) :=
  (List.range xs.length).map (nextObs xs)

/-- Observed entries with their positions. -/
def obsIdx (xs : List (Option ℚ)) : List (ℕ × ℚ) :=
  xs.enum.filterMap (fun p => p.2.map (fun v => (p.1, v)))

/-- Nearest observed entry strictly before position `i`. -/
def lastObsIdx (xs : List (Option ℚ)) (i : ℕ) : Option (ℕ × ℚ) :=
  ((obsIdx xs).filter (fun p => p.1 < i)).getLast?

/-- Nearest observed entry strictly after position `i`. -/
def nextObsIdx (xs : List (Option ℚ)) (i : ℕ) : Option (ℕ × ℚ) :=
  ((obsIdx xs).filter (fun p => i < p.1)).head?

/-- Linear interpolation, `.interpolate(method='linear')` (line 260): an
observed value is kept; a missing value between observations `(j, a)` and
`(k, b)` becomes `a + (b - a)·(i - j)/(k - j)`; a trailing missing value
after the last observation takes that observation's value; missing values
before the first observation stay missing. -/
def interpAt (xs : List (Option ℚ)) (i : ℕ) : Option ℚ :=
  match xs.get? i with
  | some (some v) => some v
  | _ =>
      match lastObsIdx xs i, nextObsIdx xs i with
      | some p, some q =>
          some (p.2 + (q.2 - p.2) * (((i : ℚ) - (p.1 : ℚ)) / ((q.1 : ℚ) - (p.1 : ℚ))))
      | some p, none => some p.2
      | none, _ => none

def interpolate_linear (xs : List (Option ℚ)) : List (Option ℚ) :=
  (List.range xs.length).map (interpAt xs)

/-- Neutral fallback, `.fillna(0.0)` (line 263). -/
def fillna_zero (xs : List (Option ℚ)) : List (Option ℚ) :=
  xs.map (fun x => some (x.getD 0))

/-- Sentiment interpolation pass
(`scripts/crypto_news_collector.py` lines 237-280,
`interpolate_missing_sentiment`): if no value is missing the batch is
returned unchanged (also covering the empty batch); otherwise forward
fill, then backward fill, then linear interpolation, then the neutral
0.0 fallback are applied in that order. -/
def interpolate_missing_sentiment (xs : List (Option ℚ)) : List (Option ℚ) :=
  if xs.countP (fun x => x.isNone) = 0 then xs
  else fillna_zero (interpolate_linear (bfill (ffill xs)))

theorem ffill_get (xs : List (Option ℚ)) (i : ℕ) (h : i < xs.length) :
    (ffill xs).get? i = some (lastObs xs i) := by
  unfold ffill
  rw [List.get?_map, List.get?_range h]
  rfl

theorem bfill_get (xs : List (Option ℚ)) (i : ℕ) (h : i < xs.length) :
    (bfill xs).get? i = some (nextObs xs i) := by
  unfold bfill
  rw [List.get?_map, List.get?_range h]
  rfl

theorem lastObs_gap (xs : List (Option ℚ)) (i j : ℕ) (a : ℚ)
    (hji : j < i)
    (hj : xs.get? j = some (some a))
    (hgap : ∀ m, j < m → m ≤ i → xs.get? m = some none) :
    lastObs xs i = some a := by
  have hsegnone : ∀ y ∈ (xs.take (i + 1)).drop (j + 1), y = none := by
    intro y hy
    obtain ⟨n, hn⟩ := List.mem_iff_get?.mp hy
    rw [List.get?_drop] at hn
    by_cases hlt : j + 1 + n < i + 1
    · rw [List.get?_take hlt] at hn
      have hm := hgap (j + 1 + n) (by omega) (by omega)
      rw [hm] at hn
      cases hn
      rfl
    · have hnone : (xs.take (i + 1)).get? (j + 1 + n) = none := by
        apply List.get?_eq_none.mpr
        have : (xs.take (i + 1)).length ≤ i + 1 := by
          rw [List.length_take]; omega
        omega
      rw [hnone] at hn
      cases hn
  have htt : (xs.take (i + 1)).take (j + 1) = xs.take (j + 1) := by
    rw [List.take_take]
    congr 1
    omega
  have hfmseg : ((xs.take (i + 1)).drop (j + 1)).filterMap id = [] := by
    rw [List.filterMap_eq_nil]
    intro y hy
    rw [hsegnone y hy]
    rfl
  have hsplit : (xs.take (i + 1)).filterMap id = (xs.take (j + 1)).filterMap id := by
    conv_lhs => rw [← List.take_append_drop (j + 1) (xs.take (i + 1))]
    rw [List.filterMap_append, htt, hfmseg, List.append_nil]
  have hj2 : xs[j]? = some (some a) := by
    rw [← List.get?_eq_getElem?]
    exact hj
  have hjtake : xs.take (j + 1) = xs.take j ++ [some a] := by
    rw [List.take_succ, hj2]
    rfl
  unfold lastObs
  rw [hsplit, hjtake, List.filterMap_append]
  have hsing : ([some a] : List (Option ℚ)).filterMap id = [a] := rfl
  rw [hsing]
  exact List.getLast?_concat _

theorem bfill_preserves (ys : List (Option ℚ)) (i : ℕ) (v : ℚ)
    (h : ys.get? i = some (some v)) :
    (bfill ys).get? i = some (some v) := by
  obtain ⟨hlt, -⟩ := List.get?_eq_some.mp h
  rw [bfill_get ys i hlt]
  suffices hs : nextObs ys i = some v by rw [hs]
  unfold nextObs
  cases hd : ys.drop i with
  | nil =>
      exfalso
      have h0 : (ys.drop i).get? 0 = ys.get? (i + 0) := List.get?_drop ys i 0
      rw [hd, Nat.add_zero, h] at h0
      cases h0
  | cons y t =>
      have h0 : (ys.drop i).get? 0 = ys.get? (i + 0) := List.get?_drop ys i 0
      rw [hd, Nat.add_zero, h] at h0
      have hy : y = some v := by
        have hyy : some y = some (some v) := h0
        cases hyy
        rfl
      rw [hy]
      rfl

theorem interpolate_linear_preserves (zs : List (Option ℚ)) (i : ℕ) (v : ℚ)
    (h : zs.get? i = some (some v)) :
    (interpolate_linear zs).get? i = some (some v) := by
  obtain ⟨hlt, -⟩ := List.get?_eq_some.mp h
  unfold interpolate_linear
  rw [List.get?_map, List.get?_range hlt]
  suffices hs : interpAt zs i = some v by rw [Option.map_some', hs]
  unfold interpAt
  rw [h]

theorem fillna_zero_preserves (l : List (Option ℚ)) (i : ℕ) (v : ℚ)
    (h : l.get? i = some (some v)) :
    (fillna_zero l).get? i = some (some v) := by
  unfold fillna_zero
  rw [List.get?_map, h]
  rfl

theorem ffill_all_none (xs : List (Option ℚ)) (h : ∀ x ∈ xs, x = none) :
    ∀ y ∈ ffill xs, y = none := by
  intro y hy
  obtain ⟨i, -, rfl⟩ := List.mem_map.mp hy
  unfold lastObs
  have hnil : (xs.take (i + 1)).filterMap id = [] := by
    rw [List.filterMap_eq_nil]
    intro z hz
    rw [h z (List.take_subset _ _ hz)]
    rfl
  rw [hnil]
  rfl

theorem bfill_all_none (ys : List (Option ℚ)) (h : ∀ x ∈ ys, x = none) :
    ∀ y ∈ bfill ys, y = none := by
  intro y hy
  obtain ⟨i, -, rfl⟩ := List.mem_map.mp hy
  unfold nextObs
  have hnil : (ys.drop i).filterMap id = [] := by
    rw [List.filterMap_eq_nil]
    intro z hz
    rw [h z (List.drop_subset _ _ hz)]
    rfl
  rw [hnil]
  rfl

theorem obsIdx_all_none (xs : List (Option ℚ)) (h : ∀ x ∈ xs, x = none) :
    obsIdx xs = [] := by
  unfold obsIdx
  rw [List.filterMap_eq_nil]
  intro p hp
  have hsnd : p.2 ∈ xs := by
    have hmap := List.mem_map_of_mem Prod.snd hp
    rwa [List.enum_map_snd] at hmap
  rw [h p.2 hsnd]
  rfl

theorem interpolate_all_none (zs : List (Option ℚ)) (h : ∀ x ∈ zs, x = none) :
    ∀ y ∈ interpolate_linear zs, y = none := by
  intro y hy
  obtain ⟨i, -, rfl⟩ := List.mem_map.mp hy
  have hl : lastObsIdx zs i = none := by
    unfold lastObsIdx
    rw [obsIdx_all_none zs h]
    rfl
  unfold interpAt
  cases hz : zs.get? i with
  | none => rw [hl]
  | some o =>
      cases o with
      | none => rw [hl]
      | some v =>
          exfalso
          have hmem : some v ∈ zs := List.get?_mem hz
          exact absurd (h (some v) hmem) (by simp)

/-- C7: for every date with zero articles that lies strictly between two
dates with observed mean sentiment values `a` and `b` (with no other
observation in between on the left), the filled value lies between
`min(a,b)` and `max(a,b)` inclusive (the pass forward-fills the gap with
`a`); and if every date in the batch has zero articles, every filled
value equals the neutral 0.0 rather than remaining null. -/
theorem sentiment_interpolation_bounds :
    (∀ (xs : List (Option ℚ)) (i j k : ℕ) (a b : ℚ),
        xs.get? i = some none → xs.get? j = some (some a) →
        xs.get? k = some (some b) → j < i → i < k →
        (∀ m, j < m → m < i → xs.get? m = some none) →
        ∃ v, (interpolate_missing_sentiment xs).get? i = some (some v) ∧
          min a b ≤ v ∧ v ≤ max a b) ∧
    (∀ xs : List (Option ℚ), (∀ x ∈ xs, x = none) →
        ∀ y ∈ interpolate_missing_sentiment xs, y = some 0) := by
  constructor
  · intro xs i j k a b hi hj hk hji hik hgap
    have hcne : ¬ xs.countP (fun x => x.isNone) = 0 := by
      have hmem : (none : Option ℚ) ∈ xs := List.get?_mem hi
      have hpos : 0 < xs.countP (fun x => x.isNone) :=
        List.countP_pos.mpr ⟨none, hmem, rfl⟩
      omega
    obtain ⟨hlt, -⟩ := List.get?_eq_some.mp hi
    have hff : (ffill xs).get? i = some (some a) := by
      rw [ffill_get xs i hlt]
      have hlast : lastObs xs i = some a := by
        apply lastObs_gap xs i j a hji hj
        intro m h1 h2
        rcases Nat.lt_or_ge m i with hm | hm
        · exact hgap m h1 hm
        · have hmi : m = i := by omega
          rw [hmi]
          exact hi
      rw [hlast]
    have hbf := bfill_preserves (ffill xs) i a hff
    have hint := interpolate_linear_preserves (bfill (ffill xs)) i a hbf
    have hfz := fillna_zero_preserves (interpolate_linear (bfill (ffill xs))) i a hint
    refine ⟨a, ?_, min_le_left _ _, le_max_left _ _⟩
    unfold interpolate_missing_sentiment
    rw [if_neg hcne]
    exact hfz
  · intro xs h y hy
    unfold interpolate_missing_sentiment at hy
    by_cases hc : xs.countP (fun x => x.isNone) = 0
    · rw [if_pos hc] at hy
      cases xs with
      | nil => exact absurd hy (List.not_mem_nil y)
      | cons x t =>
          exfalso
          have hx : x = none := h x (List.mem_cons_self _ _)
          have hpos : 0 < (x :: t).countP (fun x => x.isNone) :=
            List.countP_pos.mpr ⟨x, List.mem_cons_self _ _, by rw [hx]; rfl⟩
          omega
    · rw [if_neg hc] at hy
      unfold fillna_zero at hy
      obtain ⟨x, hx, rfl⟩ := List.mem_map.mp hy
      have hxnone : x = none :=
        interpolate_all_none (bfill (ffill xs))
          (bfill_all_none (ffill xs) (ffill_all_none xs h)) x hx
      rw [hxnone]
      rfl

theorem sentiment_interpolation_bounds_witness :
    (∃ v, (interpolate_missing_sentiment [some 1, none, some 3]).get? 1 =
        some (some v) ∧ min (1 : ℚ) 3 ≤ v ∧ v ≤ max (1 : ℚ) 3) ∧
    (∀ y ∈ interpolate_missing_sentiment [none, none], y = some 0) :=
  ⟨sentiment_interpolation_bounds.1 [some 1, none, some 3] 1 0 2 1 3
      rfl rfl rfl (by omega) (by omega)
      (fun m h1 h2 => absurd h2 (by omega)),
   sentiment_interpolation_bounds.2 [none, none]
      (by intro x hx; rcases List.mem_cons.mp hx with rfl | hx2
          · rfl
          · rcases List.mem_cons.mp hx2 with rfl | hx3
            · rfl
            · exact absurd hx3 (List.not_mem_nil x))⟩
